import Mathlib

/-!
Verification of the immich-drop upload deduplication and invite-gated
ingestion pipeline (`app/app.py`, `app/api_routes.py`).

The Python handlers are shallowly embedded as pure Lean functions over
explicit state: SQLite tables become lists/records, the remote Immich
server and the byte-progress callback become oracle parameters, and the
per-request SQL statements of the invite claim/consume logic become
atomic steps of a small interleaving semantics.  Byte strings are lists
of naturals (codepoints / byte values).
-/

namespace ImmichDrop

/-- Raw file bytes (also used for codepoint sequences of filenames). -/
abbrev Bytes := List Nat

/-! ## sanitize_filename (app/app.py lines 206-226) -/

/-- The literal fallback string "file" as codepoints. -/
def fileFallback : Bytes := [102, 105, 108, 101]

/-- Control characters removed by `sanitize_filename`: `\x00`-`\x1F` and `\x7F`. -/
def isCtl (o : Nat) : Bool := o < 32 || o == 127

/-- Python `str.isspace` on a single codepoint (the set stripped by `str.strip`). -/
def pyIsSpace (o : Nat) : Bool :=
  (9 ≤ o && o ≤ 13) || (28 ≤ o && o ≤ 31) || o == 32 || o == 133 || o == 160 ||
  o == 5760 || (8192 ≤ o && o ≤ 8202) || o == 8232 || o == 8233 ||
  o == 8239 || o == 8287 || o == 12288

/-- Python `str.strip()`: drop leading and trailing whitespace. -/
def pyStrip (l : Bytes) : Bytes :=
  ((l.dropWhile pyIsSpace).reverse.dropWhile pyIsSpace).reverse

/-- The character loop of `sanitize_filename`: drop control characters,
replace `/` (47) and `\` (92) by `_` (95), keep everything else. -/
def cleanChars : Bytes → Bytes
  | [] => []
  | o :: t =>
    if isCtl o then cleanChars t
    else (if o == 47 || o == 92 then 95 else o) :: cleanChars t

/-- `sanitize_filename` from `app/app.py`: minimally sanitized filename.
`none` models Python `None`; the empty list models the empty string
(both are falsy in the `if not name` guard). -/
def sanitize_filename (name : Option Bytes) : Bytes :=
  match name with
  | none => fileFallback
  | some s =>
    if s = [] then fileFallback
    else
      let cleaned := pyStrip (cleanChars s)
      if cleaned = [] then fileFallback else cleaned

lemma mem_cleanChars_ok {s : Bytes} {c : Nat} (h : c ∈ cleanChars s) :
    c ≠ 47 ∧ c ≠ 92 ∧ ¬ c < 32 ∧ c ≠ 127 := by
  induction s with
  | nil => simp [cleanChars] at h
  | cons a t ih =>
    rw [cleanChars] at h
    by_cases ha : isCtl a
    · rw [if_pos ha] at h
      exact ih h
    · rw [if_neg ha] at h
      rcases List.mem_cons.mp h with h | h
      · by_cases hsep : (a == 47 || a == 92) = true
        · rw [if_pos hsep] at h
          subst h
          decide
        · rw [if_neg hsep] at h
          subst h
          simp only [isCtl, Bool.or_eq_true, beq_iff_eq, decide_eq_true_eq] at ha hsep
          push_neg at hsep
          refine ⟨hsep.1, hsep.2, ?_, ?_⟩
          · intro hlt
            exact ha (Or.inl hlt)
          · intro h127
            exact ha (Or.inr (by simp [h127]))
      · exact ih h

lemma mem_pyStrip_sub {l : Bytes} {c : Nat} (h : c ∈ pyStrip l) : c ∈ l := by
  have h1 : c ∈ (l.dropWhile pyIsSpace).reverse.dropWhile pyIsSpace := by
    simpa [pyStrip] using h
  have h2 := (List.dropWhile_sublist pyIsSpace).mem h1
  have h3 := List.mem_reverse.mp h2
  exact (List.dropWhile_sublist pyIsSpace).mem h3

/-- C10: `sanitize_filename` always returns a non-empty name free of path
separators and control characters; a missing input, or one whose cleaned
and stripped form is empty, yields the literal "file". -/
theorem C10_sanitize_filename (name : Option Bytes) :
    sanitize_filename name ≠ [] ∧
    (∀ c ∈ sanitize_filename name, c ≠ 47 ∧ c ≠ 92 ∧ ¬ c < 32 ∧ c ≠ 127) ∧
    ((name = none ∨ ∃ s, name = some s ∧ pyStrip (cleanChars s) = []) →
      sanitize_filename name = fileFallback) := by
  have hfb : ∀ c ∈ fileFallback, c ≠ 47 ∧ c ≠ 92 ∧ ¬ c < 32 ∧ c ≠ 127 := by decide
  refine ⟨?_, ?_, ?_⟩
  · cases name with
    | none => simp [sanitize_filename, fileFallback]
    | some s =>
      by_cases hs : s = []
      · simp [sanitize_filename, hs, fileFallback]
      · by_cases hcl : pyStrip (cleanChars s) = []
        · simp [sanitize_filename, hs, hcl, fileFallback]
        · simp [sanitize_filename, hs, hcl]
  · intro c hc
    cases name with
    | none =>
      simp only [sanitize_filename] at hc
      exact hfb c hc
    | some s =>
      by_cases hs : s = []
      · simp only [sanitize_filename, hs, if_pos rfl] at hc
        exact hfb c hc
      · by_cases hcl : pyStrip (cleanChars s) = []
        · simp only [sanitize_filename, hs, if_neg hs, hcl, if_pos rfl] at hc
          exact hfb c hc
        · simp only [sanitize_filename, if_neg hs, if_neg hcl] at hc
          exact mem_cleanChars_ok (mem_pyStrip_sub hc)
  · intro h
    rcases h with h | ⟨s, hn, hcl⟩
    · simp [sanitize_filename, h]
    · subst hn
      by_cases hs : s = []
      · simp [sanitize_filename, hs]
      · simp [sanitize_filename, hs, hcl]

/-- Witness for C10 at a concrete input: a name made only of a separator,
a control character and whitespace collapses to "file". -/
theorem C10_sanitize_filename_witness :
    sanitize_filename (some [10, 47, 32]) ≠ [] ∧ sanitize_filename none = fileFallback :=
  ⟨(C10_sanitize_filename (some [10, 47, 32])).1,
   (C10_sanitize_filename none).2.2 (Or.inl rfl)⟩

/-! ## Chunk assembler (app/app.py: api_upload_chunk / api_upload_chunk_complete) -/

/-- On-disk state of one (session, item) chunk directory: the stored part
files (`part_NNNNNN`, keyed by index) and the `meta.json` manifest. -/
structure ChunkDir where
  parts : Nat → Option Bytes
  hasMeta : Bool

/-- Fresh / fully cleaned-up chunk directory. -/
def emptyChunkDir : ChunkDir := ⟨fun _ => none, false⟩

/-- `api_upload_chunk`: write one part file (overwriting any previous one
at the same index) and (re)write the manifest. -/
def putPart (d : ChunkDir) (i : Nat) (b : Bytes) : ChunkDir :=
  ⟨fun j => if j = i then some b else d.parts j, true⟩

/-- Store a sequence of (index, bytes) part submissions in arrival order. -/
def storeParts (d : ChunkDir) (l : List (Nat × Bytes)) : ChunkDir :=
  l.foldl (fun d p => putPart d p.1 p.2) d

/-- The assembly loop of `api_upload_chunk_complete`: starting at index
`i` with `n` parts still expected, either return the first missing index
or the in-order concatenation of the parts. -/
def assembleFrom (d : ChunkDir) : Nat → Nat → Except Nat Bytes
  | _, 0 => .ok []
  | i, n + 1 =>
    match d.parts i with
    | none => .error i
    | some b =>
      match assembleFrom d (i + 1) n with
      | .error j => .error j
      | .ok rest => .ok (b ++ rest)

/-- `api_upload_chunk_complete` (assembly and cleanup portion): on a
missing part the handler returns `{"error": "missing_part", "index": i}`
before any cleanup, leaving the chunk directory intact; on success it
concatenates parts `0..total-1` in index order and then deletes the part
files, the manifest and the directory. -/
def api_upload_chunk_complete (d : ChunkDir) (total : Nat) : Except Nat Bytes × ChunkDir :=
  match assembleFrom d 0 total with
  | .error i => (.error i, d)
  | .ok raw => (.ok raw, emptyChunkDir)

/-- How the uploading client splits a file into chunks of size `k`. -/
def splitEvery (k : Nat) (l : Bytes) : List Bytes :=
  if l = [] ∨ k = 0 then [] else l.take k :: splitEvery k (l.drop k)
termination_by l.length
decreasing_by
  rename_i h
  push_neg at h
  have hl : 0 < l.length := List.length_pos.mpr h.1
  have hk : 0 < k := Nat.pos_of_ne_zero h.2
  simpa using Nat.sub_lt hl hk

/-- Index the chunk list the way the client numbers its submissions. -/
def idxFrom (i : Nat) : List Bytes → List (Nat × Bytes)
  | [] => []
  | b :: bs => (i, b) :: idxFrom (i + 1) bs

lemma splitEvery_join (k : Nat) (hk : k ≠ 0) (l : Bytes) :
    (splitEvery k l).flatten = l := by
  induction l using splitEvery.induct k with
  | case1 l h =>
    rcases h with h | h
    · simp [splitEvery, h]
    · exact absurd h hk
  | case2 l h ih =>
    rw [splitEvery, if_neg h]
    simp [ih]

lemma idxFrom_fst_lt {i j : Nat} {b : Bytes} {cs : List Bytes}
    (h : (j, b) ∈ idxFrom i cs) : i ≤ j ∧ j < i + cs.length := by
  induction cs generalizing i with
  | nil => simp [idxFrom] at h
  | cons c t ih =>
    rcases List.mem_cons.mp h with h | h
    · cases h
      simp
    · have h2 := ih h
      simp only [List.length_cons]
      omega

lemma idxFrom_mem_iff {i j : Nat} {b : Bytes} {cs : List Bytes} :
    (j, b) ∈ idxFrom i cs ↔ ∃ t, j = i + t ∧ cs.get? t = some b := by
  induction cs generalizing i with
  | nil => simp [idxFrom]
  | cons c t ih =>
    constructor
    · intro h
      rcases List.mem_cons.mp h with h | h
      · cases h
        exact ⟨0, by simp⟩
      · rcases ih.mp h with ⟨u, hu, hget⟩
        exact ⟨u + 1, by omega, by simpa using hget⟩
    · rintro ⟨u, hu, hget⟩
      cases u with
      | zero =>
        simp at hget
        subst hget
        simp at hu
        subst hu
        exact List.mem_cons_self _ _
      | succ v =>
        refine List.mem_cons_of_mem _ (ih.mpr ⟨v, by omega, by simpa using hget⟩)

lemma idxFrom_keys_nodup (i : Nat) (cs : List Bytes) :
    ((idxFrom i cs).map Prod.fst).Nodup := by
  induction cs generalizing i with
  | nil => simp [idxFrom]
  | cons c t ih =>
    simp only [idxFrom, List.map_cons, List.nodup_cons]
    refine ⟨?_, ih (i + 1)⟩
    intro hmem
    rcases List.mem_map.mp hmem with ⟨⟨j, b⟩, hjb, hj⟩
    have := idxFrom_fst_lt hjb
    simp at hj
    omega

lemma storeParts_not_mem (base : ChunkDir) (l : List (Nat × Bytes)) (i : Nat)
    (h : ∀ p ∈ l, p.1 ≠ i) : (storeParts base l).parts i = base.parts i := by
  induction l generalizing base with
  | nil => rfl
  | cons p t ih =>
    have hp : p.1 ≠ i := h p (List.mem_cons_self _ _)
    have ht : ∀ q ∈ t, q.1 ≠ i := fun q hq => h q (List.mem_cons_of_mem _ hq)
    calc (storeParts base (p :: t)).parts i
        = (storeParts (putPart base p.1 p.2) t).parts i := rfl
      _ = (putPart base p.1 p.2).parts i := ih _ ht
      _ = base.parts i := by
          show (if i = p.1 then some p.2 else base.parts i) = base.parts i
          rw [if_neg (fun hcon => hp hcon.symm)]

lemma storeParts_mem (base : ChunkDir) (l : List (Nat × Bytes)) (i : Nat) (b : Bytes)
    (hnd : (l.map Prod.fst).Nodup) (h : (i, b) ∈ l) :
    (storeParts base l).parts i = some b := by
  induction l generalizing base with
  | nil => simp at h
  | cons p t ih =>
    simp only [List.map_cons, List.nodup_cons] at hnd
    rcases List.mem_cons.mp h with h | h
    · subst h
      have ht : ∀ q ∈ t, q.1 ≠ i := by
        intro q hq hcon
        exact hnd.1 (List.mem_map.mpr ⟨q, hq, hcon⟩)
      calc (storeParts base ((i, b) :: t)).parts i
          = (storeParts (putPart base i b) t).parts i := rfl
        _ = (putPart base i b).parts i := storeParts_not_mem _ _ _ ht
        _ = some b := by simp [putPart]
    · exact ih _ hnd.2 h

lemma assembleFrom_ok (d : ChunkDir) (cs : List Bytes) (i : Nat)
    (h : ∀ t b, cs.get? t = some b → d.parts (i + t) = some b) :
    assembleFrom d i cs.length = .ok cs.flatten := by
  induction cs generalizing i with
  | nil => rfl
  | cons c t ih =>
    have hc : d.parts i = some c := by simpa using h 0 c (by simp)
    have ht : ∀ u b, t.get? u = some b → d.parts (i + 1 + u) = some b := by
      intro u b hu
      have := h (u + 1) b (by simpa using hu)
      simpa [Nat.add_assoc, Nat.add_comm 1 u] using this
    simp only [List.length_cons, assembleFrom, hc, ih (i + 1) ht, List.flatten_cons]

lemma assembleFrom_isSome (d : ChunkDir) (n i : Nat)
    (h : ∀ t, t < n → (d.parts (i + t)).isSome) :
    ∃ out, assembleFrom d i n = .ok out := by
  induction n generalizing i with
  | zero => exact ⟨[], rfl⟩
  | succ m ih =>
    have h0 : (d.parts i).isSome := by simpa using h 0 (Nat.succ_pos m)
    rcases Option.isSome_iff_exists.mp h0 with ⟨b, hb⟩
    have hrec : ∀ t, t < m → (d.parts (i + 1 + t)).isSome := by
      intro t htm
      have := h (t + 1) (by omega)
      simpa [Nat.add_assoc, Nat.add_comm 1 t] using this
    rcases ih (i + 1) hrec with ⟨out, hout⟩
    exact ⟨b ++ out, by simp [assembleFrom, hb, hout]⟩

lemma assembleFrom_missing (d : ChunkDir) (n i m : Nat)
    (hm : m < n) (hmiss : d.parts (i + m) = none)
    (hpre : ∀ j, j < m → (d.parts (i + j)).isSome) :
    assembleFrom d i n = .error (i + m) := by
  induction m generalizing i n with
  | zero =>
    cases n with
    | zero => omega
    | succ k =>
      simp at hmiss
      simp [assembleFrom, hmiss]
  | succ m ih =>
    cases n with
    | zero => omega
    | succ k =>
      have h0 : (d.parts i).isSome := by simpa using hpre 0 (Nat.succ_pos m)
      rcases Option.isSome_iff_exists.mp h0 with ⟨b, hb⟩
      have hmiss1 : d.parts (i + 1 + m) = none := by
        simpa [Nat.add_assoc, Nat.add_comm 1 m] using hmiss
      have hpre1 : ∀ j, j < m → (d.parts (i + 1 + j)).isSome := by
        intro j hj
        have := hpre (j + 1) (by omega)
        simpa [Nat.add_assoc, Nat.add_comm 1 j] using this
      have := ih k (i + 1) (by omega) hmiss1 hpre1
      simp only [assembleFrom, hb, this]
      congr 1
      omega

/-- C7: chunked-upload completion. (a) If the parts of `splitEvery k source`
are all submitted, in any arrival order, completion concatenates them in
index order, reproduces `source` exactly and deletes the part set;
(b) if index `m < total` is missing and every smaller index is present,
completion fails reporting exactly `m` and leaves the directory untouched;
(c) if `m` was the only gap, resubmitting just part `m` lets completion
succeed (and then clean up). -/
theorem C7_chunk_reassembly (k : Nat) (hk : k ≠ 0) (source : Bytes)
    (l : List (Nat × Bytes)) (hperm : l.Perm (idxFrom 0 (splitEvery k source)))
    (d : ChunkDir) (total m : Nat)
    (hm : m < total) (hmiss : d.parts m = none)
    (hpre : ∀ j, j < m → (d.parts j).isSome) :
    api_upload_chunk_complete (storeParts emptyChunkDir l) (splitEvery k source).length
      = (.ok source, emptyChunkDir)
    ∧ api_upload_chunk_complete d total = (.error m, d)
    ∧ (∀ bm, (∀ j, j < total → j ≠ m → (d.parts j).isSome) →
        ∃ out, api_upload_chunk_complete (putPart d m bm) total = (.ok out, emptyChunkDir)) := by
  refine ⟨?_, ?_, ?_⟩
  · have hnd : (l.map Prod.fst).Nodup := by
      have := idxFrom_keys_nodup 0 (splitEvery k source)
      exact ((hperm.map Prod.fst).nodup_iff).mpr this
    have hstore : ∀ t b, (splitEvery k source).get? t = some b →
        (storeParts emptyChunkDir l).parts (0 + t) = some b := by
      intro t b hget
      have hmem : (t, b) ∈ idxFrom 0 (splitEvery k source) :=
        idxFrom_mem_iff.mpr ⟨t, by omega, hget⟩
      have hmem2 : (t, b) ∈ l := hperm.mem_iff.mpr hmem
      simpa using storeParts_mem emptyChunkDir l t b hnd hmem2
    have := assembleFrom_ok (storeParts emptyChunkDir l) (splitEvery k source) 0 hstore
    rw [splitEvery_join k hk source] at this
    simp [api_upload_chunk_complete, this]
  · have := assembleFrom_missing d total 0 m hm (by simpa using hmiss)
      (by intro j hj; simpa using hpre j hj)
    simp only [Nat.zero_add] at this
    simp [api_upload_chunk_complete, this]
  · intro bm hall
    have hfull : ∀ t, t < total → ((putPart d m bm).parts (0 + t)).isSome := by
      intro t ht
      by_cases htm : t = m
      · subst htm
        simp [putPart]
      · have := hall t ht htm
        simpa [putPart, htm] using this
    rcases assembleFrom_isSome (putPart d m bm) total 0 hfull with ⟨out, hout⟩
    exact ⟨out, by simp [api_upload_chunk_complete, hout]⟩

/-- Witness for C7: the spec example — `total = 3` with indices `{0, 2}`
present reports index 1 missing and keeps the parts; resubmitting index 1
completes; and a 2-byte split of a 3-byte file, submitted out of order,
reassembles exactly. -/
theorem C7_chunk_reassembly_witness :
    api_upload_chunk_complete (storeParts emptyChunkDir [(1, [20]), (0, [10, 11])]) 2
      = (.ok [10, 11, 20], emptyChunkDir)
    ∧ api_upload_chunk_complete (putPart (putPart emptyChunkDir 0 [1]) 2 [3]) 3
      = (.error 1, putPart (putPart emptyChunkDir 0 [1]) 2 [3])
    ∧ ∃ out, api_upload_chunk_complete
        (putPart (putPart (putPart emptyChunkDir 0 [1]) 2 [3]) 1 [2]) 3
      = (.ok out, emptyChunkDir) := by
  have hsp : splitEvery 2 [10, 11, 20] = [[10, 11], [20]] := by
    simp [splitEvery]
  have h := C7_chunk_reassembly 2 (by decide) [10, 11, 20] [(1, [20]), (0, [10, 11])]
    (by rw [hsp]; decide) (putPart (putPart emptyChunkDir 0 [1]) 2 [3]) 3 1
    (by decide) (by simp [putPart, emptyChunkDir])
    (by
      intro j hj
      have hj0 : j = 0 := by omega
      subst hj0
      simp [putPart])
  refine ⟨?_, h.2.1, ?_⟩
  · have h1 := h.1
    rwa [hsp] at h1
  · refine h.2.2 [2] ?_
    intro j h3 h1
    interval_cases j
    · simp [putPart]
    · exact absurd rfl h1
    · simp [putPart]

/-! ## Local dedup ledger (app/app.py: uploads table) -/

/-- One row of the `uploads` table (the local dedup ledger). -/
structure UploadRow where
  checksum : String
  filename : String
  size : Nat
  device_asset_id : String
  immich_asset_id : Option String
  created_at : String
deriving DecidableEq, Repr

/-- The local SQLite state database (the `uploads` table). -/
structure Db where
  uploads : List UploadRow
deriving DecidableEq, Repr

/-- `db_lookup_checksum`: record for the given checksum if seen before. -/
def db_lookup_checksum (db : Db) (c : String) : Option UploadRow :=
  db.uploads.find? (fun r => r.checksum == c)

/-- `db_lookup_device_asset`: true if this deviceAssetId was uploaded before. -/
def db_lookup_device_asset (db : Db) (dev : String) : Bool :=
  db.uploads.any (fun r => r.device_asset_id == dev)

/-- `db_insert_upload`: `INSERT OR IGNORE` keyed by the unique `checksum`
column — a second row with an existing checksum is silently dropped. -/
def db_insert_upload (db : Db) (row : UploadRow) : Db :=
  if db.uploads.any (fun r => r.checksum == row.checksum) then db
  else ⟨db.uploads ++ [row]⟩

/-! ## Invites (app/app.py: invites table, validation inside api_upload) -/

/-- One row of the `invites` table (fields read by `api_upload`).
`expires_at` timestamps are abstracted to naturals ordered like the ISO
strings the code parses and compares against `utcnow`. -/
structure Invite where
  album_id : Option String
  album_name : Option String
  max_uses : Option Int
  used_count : Option Int
  expires_at : Option Nat
  claimed : Bool
  claimed_by_session : Option String
  password_hash : Option String
  disabled : Bool
deriving DecidableEq, Repr

/-- Python truthiness of a TEXT column value: `NULL` and `""` are falsy. -/
def truthyStr : Option String → Bool
  | none => false
  | some s => s ≠ ""

/-- The invite-validation block of `api_upload` (lines 529-615), run
sequentially within one request: admin-disable check, password gate,
expiry, then the single-use claim (here: uncontended, so an unclaimed
invite is claimed by this session) or the multi-use usage check.
Errors are `(reason_code, human_message)` exactly as the handler returns
them; success returns the invite row as it stands after the block. -/
def validate_invite (inv : Option Invite) (session_id : String)
    (sessAuthorized : Bool) (now : Nat) : Except (String × String) Invite :=
  match inv with
  | none => .error ("invalid_invite", "Invalid invite token")
  | some v =>
    if v.disabled then .error ("invite_disabled", "Invite disabled")
    else if v.password_hash.isSome && !sessAuthorized then
      .error ("invite_password_required", "Password required")
    else if (match v.expires_at with
             | some e => decide (now > e)
             | none => false) then
      .error ("invite_expired", "Invite expired")
    else
      let max_uses_int : Int := v.max_uses.getD (-1)
      if max_uses_int = 1 then
        if v.claimed then
          if truthyStr v.claimed_by_session
              && v.claimed_by_session ≠ some session_id then
            .error ("invite_claimed", "Invite already used")
          else .ok v
        else .ok { v with claimed := true, claimed_by_session := some session_id }
      else
        if v.used_count.getD 0 ≥ (if max_uses_int ≥ 0 then max_uses_int else 10 ^ 9) then
          .error ("invite_exhausted", "Invite already used up")
        else .ok v

/-- The usage bump `do_upload` runs after a successful remote upload:
re-read `max_uses`; a one-time invite gets `used_count = 1`, anything
else gets the blind SQL increment `used_count = used_count + 1`
(`NULL + 1` stays `NULL` in SQLite). -/
def increment_usage (inv : Option Invite) : Option Invite :=
  match inv with
  | none => none
  | some v =>
    if v.max_uses = some 1 then some { v with used_count := some 1 }
    else some { v with used_count := v.used_count.map (· + 1) }

/-! ## Progress events and request traces -/

/-- One WebSocket progress payload pushed by `send_progress`. -/
structure Event where
  status : String
  progress : Nat
  message : String
  responseId : Option String
deriving DecidableEq, Repr

/-- Externally visible side effects of one request, in program order. -/
inductive Action
  | localChecksumLookup
  | localDeviceLookup
  | remoteBulkCheck
  | inviteValidation
  | remoteUpload
  | ledgerInsert
  | albumAdd
  | usageIncrement
  | auditAppend
deriving DecidableEq, Repr

/-- The JSON response of `api_upload`. -/
inductive Response
  | duplicateJson (asset_id : Option String)
  | okJson (asset_id : Option String) (status : String)
  | errorJson (code : String) (statusCode : Nat)
deriving DecidableEq, Repr

/-- Result of the remote `POST /assets` call. -/
inductive RemoteUploadResult
  | ok (asset_id : Option String) (status : String)
  | httpError (msg : String)
  | transportError (msg : String)
deriving DecidableEq, Repr

/-- Result of the remote bulk-upload-check for this item. An unreachable
server or unexpected payload yields `noInfo` (the empty map). -/
inductive BulkOutcome
  | noInfo
  | rejectDuplicate (asset_id : Option String)
  | accept
deriving DecidableEq, Repr

/-- Oracle for everything outside the process during one request: the
bulk-check answer, the upload outcome, the multipart-encoded body length
and the cumulative `bytes_read` values the upload monitor observes, and
whether the album-add call succeeds. -/
structure RemoteEnv where
  bulk : BulkOutcome
  upload : RemoteUploadResult
  encodedLen : Nat
  reads : List Nat
  albumAddOk : Bool
deriving Repr

/-- The percentage values emitted by the `MultipartEncoderMonitor`
callback: `pct = bytes_read * 100 / len`, pushed only when it differs
from the previously sent value (`sent`). -/
def pctEmits (len : Nat) (sent : Nat) : List Nat → List Nat
  | [] => []
  | r :: rs =>
    if len = 0 then pctEmits len sent rs
    else
      let pct := r * 100 / len
      if pct ≠ sent then pct :: pctEmits len pct rs
      else pctEmits len sent rs

/-- Everything one `api_upload` request leaves behind. -/
structure ReqOutcome where
  db : Db
  invite : Option Invite
  resp : Response
  actions : List Action
  events : List Event
deriving Repr

/-- `do_upload` (app/app.py lines 618-719): announce `uploading 0`, POST
the multipart body while the monitor callback streams percentage events;
on 2xx insert the ledger row, best-effort add to the target album (invite
album only for invite uploads, else the configured default), emit the
terminal event, bump invite usage and append the audit row; on a non-2xx
or transport error emit only the error event and change nothing. -/
def do_upload (env : RemoteEnv) (db : Db) (settingsAlbum : Option String)
    (invite_token : Option String) (inv : Option Invite)
    (targetAlbumId targetAlbumName : Option String)
    (checksum filename : String) (size : Nat)
    (device_asset_id created_iso : String) : ReqOutcome :=
  let preEvents : List Event :=
    ⟨"uploading", 0, "Uploading…", none⟩ ::
      (pctEmits env.encodedLen 0 env.reads).map (fun p => ⟨"uploading", p, "", none⟩)
  match env.upload with
  | .transportError msg =>
    { db := db, invite := inv, resp := .errorJson msg 500,
      actions := [.remoteUpload],
      events := preEvents ++ [⟨"error", 100, msg, none⟩] }
  | .httpError msg =>
    { db := db, invite := inv, resp := .errorJson msg 400,
      actions := [.remoteUpload],
      events := preEvents ++ [⟨"error", 100, msg, none⟩] }
  | .ok asset_id status0 =>
    let db1 := db_insert_upload db
      ⟨checksum, filename, size, device_asset_id, asset_id, created_iso⟩
    let albumAttempt :=
      asset_id.isSome &&
        (match invite_token with
         | some _ => targetAlbumId.isSome || targetAlbumName.isSome
         | none => settingsAlbum.isSome)
    let added := albumAttempt && env.albumAddOk
    let suffixName :=
      match invite_token with
      | some _ => targetAlbumName.getD (targetAlbumId.getD "")
      | none => settingsAlbum.getD ""
    let status :=
      if added then status0 ++ " (added to album " ++ suffixName ++ ")" else status0
    let termStatus := if status = "duplicate" then "duplicate" else "done"
    let inv1 := if invite_token.isSome then increment_usage inv else inv
    { db := db1, invite := inv1,
      resp := .okJson asset_id status,
      actions := [.remoteUpload, .ledgerInsert]
        ++ (if albumAttempt then [.albumAdd] else [])
        ++ (if invite_token.isSome then [.usageIncrement] else [])
        ++ [.auditAppend],
      events := preEvents ++ [⟨termStatus, 100, status, asset_id⟩] }

/-- The form fields of one `POST /api/upload` request. -/
structure UploadInput where
  raw : Bytes
  filename : String
  item_id : String
  session_id : String
  last_modified : Option Nat
  invite_token : Option String
deriving Repr

/-- The derived `deviceAssetId` string `f"{filename}-{last_modified or 0}-{size}"`. -/
def deviceAssetIdOf (inp : UploadInput) : String :=
  inp.filename ++ "-" ++ toString (inp.last_modified.getD 0) ++ "-" ++ toString inp.raw.length

/-- `api_upload` (app/app.py lines 473-719): hash the bytes, short-circuit
on either local-ledger hit, push `checking` and run the remote bulk-check
(a server-reported duplicate is recorded locally and returned), then
validate the invite token if one was sent, and finally run `do_upload`.
`hash` abstracts `sha1_hex`; `created_iso` abstracts the EXIF/mtime/now
timestamp computation; `inv` is the `invites` row for the sent token. -/
def api_upload (hash : Bytes → String) (settingsAlbum : Option String)
    (db : Db) (inv : Option Invite) (sessAuthorized : Bool) (now : Nat)
    (created_iso : String) (env : RemoteEnv) (inp : UploadInput) : ReqOutcome :=
  let size := inp.raw.length
  let checksum := hash inp.raw
  let device_asset_id := deviceAssetIdOf inp
  match db_lookup_checksum db checksum with
  | some _ =>
    { db := db, invite := inv, resp := .duplicateJson none,
      actions := [.localChecksumLookup],
      events := [⟨"duplicate", 100, "Duplicate (by checksum - local cache)", none⟩] }
  | none =>
    if db_lookup_device_asset db device_asset_id then
      { db := db, invite := inv, resp := .duplicateJson none,
        actions := [.localChecksumLookup, .localDeviceLookup],
        events := [⟨"duplicate", 100, "Already uploaded from this device (local cache)", none⟩] }
    else
      let checkingEv : Event := ⟨"checking", 2, "Checking duplicates…", none⟩
      match env.bulk with
      | .rejectDuplicate asset_id =>
        let db1 := db_insert_upload db
          ⟨checksum, inp.filename, size, device_asset_id, asset_id, created_iso⟩
        { db := db1, invite := inv, resp := .duplicateJson asset_id,
          actions := [.localChecksumLookup, .localDeviceLookup, .remoteBulkCheck, .ledgerInsert],
          events := [checkingEv, ⟨"duplicate", 100, "Duplicate (server)", asset_id⟩] }
      | _ =>
        match inp.invite_token with
        | none =>
          let r := do_upload env db settingsAlbum none inv none none
            checksum inp.filename size device_asset_id created_iso
          { r with
            actions := [.localChecksumLookup, .localDeviceLookup, .remoteBulkCheck] ++ r.actions,
            events := checkingEv :: r.events }
        | some tok =>
          match validate_invite inv inp.session_id sessAuthorized now with
          | .error (code, humanMsg) =>
            { db := db, invite := inv, resp := .errorJson code 403,
              actions := [.localChecksumLookup, .localDeviceLookup,
                          .remoteBulkCheck, .inviteValidation],
              events := [checkingEv, ⟨"error", 100, humanMsg, none⟩] }
          | .ok v1 =>
            let r := do_upload env db settingsAlbum (some tok) (some v1)
              v1.album_id v1.album_name checksum inp.filename size device_asset_id created_iso
            { r with
              actions := [.localChecksumLookup, .localDeviceLookup,
                          .remoteBulkCheck, .inviteValidation] ++ r.actions,
              events := checkingEv :: r.events }

/-! ## C5: idempotent local dedup on the main upload endpoint -/

lemma db_insert_fresh (db : Db) (row : UploadRow)
    (h : db_lookup_checksum db row.checksum = none) :
    db_insert_upload db row = ⟨db.uploads ++ [row]⟩ := by
  have hany : db.uploads.any (fun r => r.checksum == row.checksum) = false := by
    rw [List.any_eq_false]
    intro r hr
    exact List.find?_eq_none.mp h r hr
  simp [db_insert_upload, hany]

lemma api_upload_checksum_hit (hash : Bytes → String) (settingsAlbum : Option String)
    (db : Db) (inv : Option Invite) (auth : Bool) (now : Nat) (ciso : String)
    (env : RemoteEnv) (inp : UploadInput) (row : UploadRow)
    (h : db_lookup_checksum db (hash inp.raw) = some row) :
    api_upload hash settingsAlbum db inv auth now ciso env inp
      = { db := db, invite := inv, resp := .duplicateJson none,
          actions := [.localChecksumLookup],
          events := [⟨"duplicate", 100, "Duplicate (by checksum - local cache)", none⟩] } := by
  simp only [api_upload, h]

lemma api_upload_db_success_no_invite (hash : Bytes → String)
    (settingsAlbum : Option String) (db : Db) (inv : Option Invite) (auth : Bool)
    (now : Nat) (ciso : String) (env : RemoteEnv) (inp : UploadInput)
    (aid : Option String) (st : String)
    (hcs : db_lookup_checksum db (hash inp.raw) = none)
    (hdev : db_lookup_device_asset db (deviceAssetIdOf inp) = false)
    (hbulk : ∀ a, env.bulk ≠ .rejectDuplicate a)
    (hticket : inp.invite_token = none)
    (hok : env.upload = .ok aid st) :
    (api_upload hash settingsAlbum db inv auth now ciso env inp).db
      = ⟨db.uploads ++ [⟨hash inp.raw, inp.filename, inp.raw.length,
          deviceAssetIdOf inp, aid, ciso⟩]⟩ := by
  cases hb : env.bulk with
  | rejectDuplicate a => exact absurd hb (hbulk a)
  | noInfo =>
    simp only [api_upload, hcs, hdev, hticket, hb, Bool.false_eq_true, if_false,
      do_upload, hok]
    exact db_insert_fresh db _ hcs
  | accept =>
    simp only [api_upload, hcs, hdev, hticket, hb, Bool.false_eq_true, if_false,
      do_upload, hok]
    exact db_insert_fresh db _ hcs

lemma db_lookup_append_self (pre : List UploadRow) (row : UploadRow)
    (h : pre.find? (fun r => r.checksum == row.checksum) = none) :
    db_lookup_checksum ⟨pre ++ [row]⟩ row.checksum = some row := by
  simp only [db_lookup_checksum, List.find?_append, h, Option.none_orElse]
  simp [List.find?]

/-- C5: with no invite involved, uploading the same bytes twice in
sequence inserts exactly one ledger row on the first (successful) call,
and the second call answers `duplicate` straight from the local checksum
lookup — its trace holds no bulk-check and no upload call. -/
theorem C5_idempotent_dedup (hash : Bytes → String) (settingsAlbum : Option String)
    (db0 : Db) (now1 now2 : Nat) (ciso1 ciso2 : String)
    (env1 env2 : RemoteEnv) (inp1 inp2 : UploadInput)
    (hraw : inp2.raw = inp1.raw)
    (hinv1 : inp1.invite_token = none) (_hinv2 : inp2.invite_token = none)
    (hcs : db_lookup_checksum db0 (hash inp1.raw) = none)
    (hdev : db_lookup_device_asset db0 (deviceAssetIdOf inp1) = false)
    (hbulk : ∀ a, env1.bulk ≠ .rejectDuplicate a)
    (aid : Option String) (st : String) (hok : env1.upload = .ok aid st) :
    (api_upload hash settingsAlbum db0 none true now1 ciso1 env1 inp1).db.uploads.length
      = db0.uploads.length + 1
    ∧ (api_upload hash settingsAlbum
        (api_upload hash settingsAlbum db0 none true now1 ciso1 env1 inp1).db
        none true now2 ciso2 env2 inp2).resp = .duplicateJson none
    ∧ (api_upload hash settingsAlbum
        (api_upload hash settingsAlbum db0 none true now1 ciso1 env1 inp1).db
        none true now2 ciso2 env2 inp2).db
      = (api_upload hash settingsAlbum db0 none true now1 ciso1 env1 inp1).db
    ∧ (api_upload hash settingsAlbum
        (api_upload hash settingsAlbum db0 none true now1 ciso1 env1 inp1).db
        none true now2 ciso2 env2 inp2).actions = [.localChecksumLookup]
    ∧ (api_upload hash settingsAlbum
        (api_upload hash settingsAlbum db0 none true now1 ciso1 env1 inp1).db
        none true now2 ciso2 env2 inp2).events
      = [⟨"duplicate", 100, "Duplicate (by checksum - local cache)", none⟩] := by
  have hdb1 : (api_upload hash settingsAlbum db0 none true now1 ciso1 env1 inp1).db
      = ⟨db0.uploads ++ [⟨hash inp1.raw, inp1.filename, inp1.raw.length,
          deviceAssetIdOf inp1, aid, ciso1⟩]⟩ :=
    api_upload_db_success_no_invite hash settingsAlbum db0 none true now1 ciso1
      env1 inp1 aid st hcs hdev hbulk hinv1 hok
  have hfound : db_lookup_checksum
      (api_upload hash settingsAlbum db0 none true now1 ciso1 env1 inp1).db
      (hash inp2.raw) = some ⟨hash inp1.raw, inp1.filename, inp1.raw.length,
        deviceAssetIdOf inp1, aid, ciso1⟩ := by
    rw [hdb1, hraw]
    exact db_lookup_append_self db0.uploads _ hcs
  have hhit := api_upload_checksum_hit hash settingsAlbum
    (api_upload hash settingsAlbum db0 none true now1 ciso1 env1 inp1).db
    none true now2 ciso2 env2 inp2 _ hfound
  rw [hhit]
  refine ⟨?_, rfl, rfl, rfl, rfl⟩
  rw [hdb1]
  simp

/-- Witness for C5 at concrete inputs. -/
theorem C5_idempotent_dedup_witness :
    (api_upload (fun _ => "h") none ⟨[]⟩ none true 0 "t"
        ⟨.noInfo, .ok (some "a1") "created", 10, [], true⟩
        ⟨[1, 2], "f.jpg", "i1", "s1", none, none⟩).db.uploads.length = 0 + 1
    ∧ (api_upload (fun _ => "h") none
        (api_upload (fun _ => "h") none ⟨[]⟩ none true 0 "t"
          ⟨.noInfo, .ok (some "a1") "created", 10, [], true⟩
          ⟨[1, 2], "f.jpg", "i1", "s1", none, none⟩).db
        none true 1 "u" ⟨.noInfo, .ok (some "a2") "created", 10, [], true⟩
        ⟨[1, 2], "g.jpg", "i2", "s2", none, none⟩).resp = .duplicateJson none := by
  have h := C5_idempotent_dedup (fun _ => "h") none ⟨[]⟩ 0 1 "t" "u"
    ⟨.noInfo, .ok (some "a1") "created", 10, [], true⟩
    ⟨.noInfo, .ok (some "a2") "created", 10, [], true⟩
    ⟨[1, 2], "f.jpg", "i1", "s1", none, none⟩
    ⟨[1, 2], "g.jpg", "i2", "s2", none, none⟩
    rfl rfl rfl (by decide) (by decide) (by intro a h; cases h) (some "a1") "created" rfl
  exact ⟨h.1, h.2.1⟩

/-! ## C3: position of invite validation in the request pipeline -/

/-- C3 counterexample: with an invite token present, the handler runs the
remote bulk-check strictly before invite validation — the claimed order
`LocallyChecked → InviteValidated → RemotelyChecked` does not hold. -/
theorem C3_counterexample :
    (api_upload (fun _ => "h") none ⟨[]⟩ none true 0 "t"
        ⟨.accept, .ok (some "a") "created", 10, [], true⟩
        ⟨[1], "f.jpg", "i1", "s1", none, some "tok"⟩).actions
      = [.localChecksumLookup, .localDeviceLookup, .remoteBulkCheck, .inviteValidation]
    ∧ List.indexOf Action.remoteBulkCheck
        (api_upload (fun _ => "h") none ⟨[]⟩ none true 0 "t"
          ⟨.accept, .ok (some "a") "created", 10, [], true⟩
          ⟨[1], "f.jpg", "i1", "s1", none, some "tok"⟩).actions
      < List.indexOf Action.inviteValidation
        (api_upload (fun _ => "h") none ⟨[]⟩ none true 0 "t"
          ⟨.accept, .ok (some "a") "created", 10, [], true⟩
          ⟨[1], "f.jpg", "i1", "s1", none, some "tok"⟩).actions
    ∧ (api_upload (fun _ => "h") none ⟨[]⟩ none true 0 "t"
        ⟨.accept, .ok (some "a") "created", 10, [], true⟩
        ⟨[1], "f.jpg", "i1", "s1", none, some "tok"⟩).resp
      = .errorJson "invalid_invite" 403 := by
  decide

lemma validate_invite_codes {inv : Option Invite} {sid : String} {auth : Bool}
    {now : Nat} {c m : String}
    (h : validate_invite inv sid auth now = .error (c, m)) :
    c ∈ (["invalid_invite", "invite_disabled", "invite_password_required",
          "invite_expired", "invite_claimed", "invite_exhausted"] : List String) := by
  cases inv with
  | none =>
    simp only [validate_invite, Except.error.injEq, Prod.mk.injEq] at h
    simp [h.1]
  | some v =>
    simp only [validate_invite] at h
    split_ifs at h <;>
      simp only [Except.error.injEq, Prod.mk.injEq, reduceCtorEq] at h <;>
      simp [h.1]

/-- C3 amended: invite validation runs after the local dedup lookups and
after the remote bulk-check; a validation failure still terminates the
item with a machine-readable reason code, an error progress event, and no
dedup-ledger write (the only pre-validation write — recording a
server-reported duplicate — would already have ended the request as a
duplicate before validation is reached). -/
theorem C3_invite_validation_order (hash : Bytes → String) (settingsAlbum : Option String)
    (db : Db) (inv : Option Invite) (sessAuthorized : Bool) (now : Nat)
    (ciso : String) (env : RemoteEnv) (inp : UploadInput)
    (tok code msg : String)
    (htok : inp.invite_token = some tok)
    (hcs : db_lookup_checksum db (hash inp.raw) = none)
    (hdev : db_lookup_device_asset db (deviceAssetIdOf inp) = false)
    (hbulk : ∀ a, env.bulk ≠ .rejectDuplicate a)
    (hval : validate_invite inv inp.session_id sessAuthorized now = .error (code, msg)) :
    (api_upload hash settingsAlbum db inv sessAuthorized now ciso env inp).actions
      = [.localChecksumLookup, .localDeviceLookup, .remoteBulkCheck, .inviteValidation]
    ∧ Action.ledgerInsert ∉
        (api_upload hash settingsAlbum db inv sessAuthorized now ciso env inp).actions
    ∧ (api_upload hash settingsAlbum db inv sessAuthorized now ciso env inp).db = db
    ∧ (api_upload hash settingsAlbum db inv sessAuthorized now ciso env inp).resp
      = .errorJson code 403
    ∧ code ∈ (["invalid_invite", "invite_disabled", "invite_password_required",
               "invite_expired", "invite_claimed", "invite_exhausted"] : List String)
    ∧ (api_upload hash settingsAlbum db inv sessAuthorized now ciso env inp).events
      = [⟨"checking", 2, "Checking duplicates…", none⟩, ⟨"error", 100, msg, none⟩] := by
  have hmain : api_upload hash settingsAlbum db inv sessAuthorized now ciso env inp
      = { db := db, invite := inv, resp := .errorJson code 403,
          actions := [.localChecksumLookup, .localDeviceLookup,
                      .remoteBulkCheck, .inviteValidation],
          events := [⟨"checking", 2, "Checking duplicates…", none⟩,
                     ⟨"error", 100, msg, none⟩] } := by
    cases hb : env.bulk with
    | rejectDuplicate a => exact absurd hb (hbulk a)
    | noInfo =>
      simp only [api_upload, hcs, hdev, hb, htok, hval, Bool.false_eq_true, if_false]
    | accept =>
      simp only [api_upload, hcs, hdev, hb, htok, hval, Bool.false_eq_true, if_false]
  rw [hmain]
  refine ⟨rfl, by simp, rfl, rfl, validate_invite_codes hval, rfl⟩

/-- Witness for C3's amended theorem at a concrete disabled invite. -/
theorem C3_invite_validation_order_witness :
    (api_upload (fun _ => "h") none ⟨[]⟩
        (some ⟨none, none, some 1, some 0, none, false, none, none, true⟩)
        true 0 "t" ⟨.noInfo, .ok (some "a") "created", 10, [], true⟩
        ⟨[1], "f.jpg", "i1", "s1", none, some "tok"⟩).resp
      = .errorJson "invite_disabled" 403 :=
  (C3_invite_validation_order (fun _ => "h") none ⟨[]⟩
    (some ⟨none, none, some 1, some 0, none, false, none, none, true⟩)
    true 0 "t" ⟨.noInfo, .ok (some "a") "created", 10, [], true⟩
    ⟨[1], "f.jpg", "i1", "s1", none, some "tok"⟩
    "tok" "invite_disabled" "Invite disabled" rfl (by decide) (by decide)
    (by intro a h; cases h) rfl).2.2.2.1

/-! ## C4: failed remote uploads have no side effects -/

lemma getLast?_cons_append_singleton {α : Type} (a c : α) (l : List α) :
    (a :: (l ++ [c])).getLast? = some c := by
  rw [show a :: (l ++ [c]) = (a :: l) ++ [c] from rfl, List.getLast?_concat]

/-- C4: when the remote `POST /assets` ends in a non-2xx response or a
transport exception, `do_upload` publishes one error event carrying the
server message or exception text, writes nothing to the dedup ledger,
appends no audit row, and leaves the invite row (its `used_count`)
untouched. -/
theorem C4_upload_failure_no_side_effects (env : RemoteEnv) (db : Db)
    (settingsAlbum : Option String) (invite_token : Option String)
    (inv : Option Invite) (tAid tAname : Option String)
    (checksum filename : String) (size : Nat) (dev ciso msg : String)
    (h : env.upload = .httpError msg ∨ env.upload = .transportError msg) :
    (do_upload env db settingsAlbum invite_token inv tAid tAname
        checksum filename size dev ciso).db = db
    ∧ (do_upload env db settingsAlbum invite_token inv tAid tAname
        checksum filename size dev ciso).invite = inv
    ∧ (do_upload env db settingsAlbum invite_token inv tAid tAname
        checksum filename size dev ciso).actions = [.remoteUpload]
    ∧ Action.ledgerInsert ∉ (do_upload env db settingsAlbum invite_token inv tAid tAname
        checksum filename size dev ciso).actions
    ∧ Action.auditAppend ∉ (do_upload env db settingsAlbum invite_token inv tAid tAname
        checksum filename size dev ciso).actions
    ∧ Action.usageIncrement ∉ (do_upload env db settingsAlbum invite_token inv tAid tAname
        checksum filename size dev ciso).actions
    ∧ (do_upload env db settingsAlbum invite_token inv tAid tAname
        checksum filename size dev ciso).events.getLast?
      = some ⟨"error", 100, msg, none⟩
    ∧ (env.upload = .httpError msg →
        (do_upload env db settingsAlbum invite_token inv tAid tAname
          checksum filename size dev ciso).resp = .errorJson msg 400)
    ∧ (env.upload = .transportError msg →
        (do_upload env db settingsAlbum invite_token inv tAid tAname
          checksum filename size dev ciso).resp = .errorJson msg 500) := by
  rcases h with h | h <;>
    refine ⟨?_, ?_, ?_, ?_, ?_, ?_, ?_, ?_, ?_⟩ <;>
      simp [do_upload, h, getLast?_cons_append_singleton]

/-- Witness for C4 at a concrete failing upload. -/
theorem C4_upload_failure_no_side_effects_witness :
    (do_upload ⟨.noInfo, .httpError "quota exceeded", 10, [3, 7], true⟩
        ⟨[]⟩ none (some "tok")
        (some ⟨none, none, some 3, some 1, none, false, none, none, false⟩)
        none none "cs" "f.jpg" 2 "dev" "t").invite
      = some ⟨none, none, some 3, some 1, none, false, none, none, false⟩
    ∧ (do_upload ⟨.noInfo, .httpError "quota exceeded", 10, [3, 7], true⟩
        ⟨[]⟩ none (some "tok")
        (some ⟨none, none, some 3, some 1, none, false, none, none, false⟩)
        none none "cs" "f.jpg" 2 "dev" "t").events.getLast?
      = some ⟨"error", 100, "quota exceeded", none⟩ := by
  have h := C4_upload_failure_no_side_effects
    ⟨.noInfo, .httpError "quota exceeded", 10, [3, 7], true⟩ ⟨[]⟩ none (some "tok")
    (some ⟨none, none, some 3, some 1, none, false, none, none, false⟩)
    none none "cs" "f.jpg" 2 "dev" "t" "quota exceeded" (Or.inl rfl)
  exact ⟨h.2.1, h.2.2.2.2.2.2.1⟩

/-! ## C8: progress percentage semantics within one upload attempt -/

/-- Terminal progress statuses: `done`, `duplicate`, `error`. -/
def isTerminalEv (e : Event) : Bool :=
  e.status == "done" || e.status == "duplicate" || e.status == "error"

lemma pctEmits_subset (len : Nat) : ∀ (reads : List Nat) (sent : Nat),
    ∀ p ∈ pctEmits len sent reads, ∃ b ∈ reads, p = b * 100 / len := by
  intro reads
  induction reads with
  | nil => intro sent p hp; simp [pctEmits] at hp
  | cons r rs ih =>
    intro sent p hp
    by_cases hlen : len = 0
    · rw [pctEmits, if_pos hlen] at hp
      rcases ih sent p hp with ⟨b, hb, he⟩
      exact ⟨b, List.mem_cons_of_mem _ hb, he⟩
    · rw [pctEmits, if_neg hlen] at hp
      by_cases hne : r * 100 / len ≠ sent
      · rw [if_pos hne] at hp
        rcases List.mem_cons.mp hp with hp | hp
        · exact ⟨r, List.mem_cons_self _ _, hp⟩
        · rcases ih _ p hp with ⟨b, hb, he⟩
          exact ⟨b, List.mem_cons_of_mem _ hb, he⟩
      · rw [if_neg hne] at hp
        rcases ih sent p hp with ⟨b, hb, he⟩
        exact ⟨b, List.mem_cons_of_mem _ hb, he⟩

lemma pctEmits_chain (len : Nat) : ∀ (reads : List Nat) (sent : Nat),
    List.Pairwise (· ≤ ·) reads →
    (∀ b ∈ reads, sent ≤ b * 100 / len) →
    List.Chain' (· < ·) (sent :: pctEmits len sent reads) := by
  intro reads
  induction reads with
  | nil => intro sent _ _; simp [pctEmits]
  | cons r rs ih =>
    intro sent hpw hsent
    rcases List.pairwise_cons.mp hpw with ⟨hr, hpw2⟩
    by_cases hlen : len = 0
    · rw [pctEmits, if_pos hlen]
      exact ih sent hpw2 (fun b hb => hsent b (List.mem_cons_of_mem _ hb))
    · rw [pctEmits, if_neg hlen]
      by_cases hne : r * 100 / len ≠ sent
      · rw [if_pos hne]
        have h1 : sent < r * 100 / len :=
          lt_of_le_of_ne (hsent r (List.mem_cons_self _ _)) (Ne.symm hne)
        have h2 : List.Chain' (· < ·) (r * 100 / len :: pctEmits len (r * 100 / len) rs) :=
          ih _ hpw2 (fun b hb =>
            Nat.div_le_div_right (Nat.mul_le_mul_right 100 (hr b hb)))
        exact List.chain'_cons.mpr ⟨h1, h2⟩
      · rw [if_neg hne]
        exact ih sent hpw2 (fun b hb => hsent b (List.mem_cons_of_mem _ hb))

lemma ifdup_status (s : String) :
    ((if s = "duplicate" then "duplicate" else "done") = "done")
    ∨ ((if s = "duplicate" then "duplicate" else "done") = "duplicate") := by
  split
  · exact Or.inr rfl
  · exact Or.inl rfl

lemma ifdup_terminal (s : String) (p : Nat) (m : String) (rid : Option String) :
    isTerminalEv ⟨if s = "duplicate" then "duplicate" else "done", p, m, rid⟩ = true := by
  split <;> simp [isTerminalEv]

lemma countP_uploading_map (ps : List Nat) :
    ((ps.map (fun p => (⟨"uploading", p, "", none⟩ : Event))).countP isTerminalEv) = 0 := by
  rw [List.countP_eq_zero]
  intro e he
  rcases List.mem_map.mp he with ⟨p, _, hp⟩
  subst hp
  simp [isTerminalEv]

/-- C8: within one successful upload attempt, every streamed percentage
is `bytes_read * 100 / encoded_len` (integer division), a percentage is
pushed only when it differs from the previously pushed value — with
monotone cumulative reads the pushed sequence starting from the initial
`uploading 0` event is strictly increasing, hence non-decreasing with no
repeats — and the event sequence ends with exactly one terminal event. -/
theorem C8_progress_monotone (env : RemoteEnv) (db : Db) (settingsAlbum : Option String)
    (invite_token : Option String) (inv : Option Invite) (tAid tAname : Option String)
    (checksum filename : String) (size : Nat) (dev ciso : String)
    (aid : Option String) (st : String)
    (hok : env.upload = .ok aid st)
    (hmono : List.Pairwise (· ≤ ·) env.reads) :
    (∀ p ∈ pctEmits env.encodedLen 0 env.reads,
        ∃ b ∈ env.reads, p = b * 100 / env.encodedLen)
    ∧ List.Chain' (· < ·) (0 :: pctEmits env.encodedLen 0 env.reads)
    ∧ (∃ term : Event,
        (do_upload env db settingsAlbum invite_token inv tAid tAname
            checksum filename size dev ciso).events
          = ⟨"uploading", 0, "Uploading…", none⟩ ::
              ((pctEmits env.encodedLen 0 env.reads).map
                (fun p => ⟨"uploading", p, "", none⟩) ++ [term])
        ∧ (term.status = "done" ∨ term.status = "duplicate")
        ∧ isTerminalEv term = true)
    ∧ (do_upload env db settingsAlbum invite_token inv tAid tAname
        checksum filename size dev ciso).events.countP isTerminalEv = 1
    ∧ (∃ e, (do_upload env db settingsAlbum invite_token inv tAid tAname
        checksum filename size dev ciso).events.getLast? = some e
        ∧ isTerminalEv e = true) := by
  have hevents : ∃ term : Event,
      (do_upload env db settingsAlbum invite_token inv tAid tAname
          checksum filename size dev ciso).events
        = ⟨"uploading", 0, "Uploading…", none⟩ ::
            ((pctEmits env.encodedLen 0 env.reads).map
              (fun p => ⟨"uploading", p, "", none⟩) ++ [term])
      ∧ (term.status = "done" ∨ term.status = "duplicate")
      ∧ isTerminalEv term = true := by
    simp only [do_upload, hok]
    exact ⟨_, rfl, ifdup_status _, ifdup_terminal _ _ _ _⟩
  refine ⟨pctEmits_subset env.encodedLen env.reads 0, ?_, hevents, ?_, ?_⟩
  · exact pctEmits_chain env.encodedLen env.reads 0 hmono (fun b _ => Nat.zero_le _)
  · rcases hevents with ⟨term, heq, hds, hterm⟩
    rw [heq]
    rw [List.countP_cons, List.countP_append, countP_uploading_map]
    rcases hds with h | h <;> simp [List.countP_cons, isTerminalEv, h]
  · rcases hevents with ⟨term, heq, _, hterm⟩
    rw [heq]
    exact ⟨term, getLast?_cons_append_singleton _ _ _, hterm⟩

/-- Witness for C8 on a concrete monotone read trace. -/
theorem C8_progress_monotone_witness :
    List.Chain' (· < ·) (0 :: pctEmits 10 0 [3, 7, 10])
    ∧ (do_upload ⟨.noInfo, .ok (some "a") "created", 10, [3, 7, 10], false⟩
        ⟨[]⟩ none none none none none "cs" "f" 1 "d" "t").events.countP isTerminalEv = 1 := by
  have h := C8_progress_monotone ⟨.noInfo, .ok (some "a") "created", 10, [3, 7, 10], false⟩
    ⟨[]⟩ none none none none none "cs" "f" 1 "d" "t" (some "a") "created" rfl
    (by decide)
  exact ⟨h.2.1, h.2.2.2.1⟩

/-! ## api_routes.py: upload_to_immich and the auxiliary upload endpoints -/

/-- `api_routes.UploadResult`: per-item outcome of the auxiliary endpoints. -/
structure UploadResultR where
  filename : String
  status : String
  asset_id : Option String
  duplicate : Bool
  error : Option String
  platform : Option String
deriving DecidableEq, Repr

/-- Outcome of the `POST {base}/assets` call made by `upload_to_immich`. -/
inductive ImmichResp
  | ok (id : Option String) (dup : Bool)
  | httpStatus (code : Nat) (text : String)
  | exn (msg : String)
deriving DecidableEq, Repr

/-- What one `upload_to_immich` call did: its returned result, its side
effects, and the checksum / device-asset-id / content-type it sent. -/
structure ImmichCall where
  result : UploadResultR
  actions : List Action
  sentChecksum : String
  sentDeviceAssetId : String
  sentContentType : String
deriving DecidableEq, Repr

/-- `upload_to_immich` (api_routes.py lines 92-143): hash the bytes, POST
them to the remote store with the checksum header, and map the response
to a result — with no local-ledger lookup or write anywhere. A non-2xx
response or exception becomes a `status="error"` result (with
`duplicate` left at its `False` default). -/
def upload_to_immich (hash : Bytes → String) (resp : ImmichResp)
    (file_content : Bytes) (filename content_type device_id : String) : ImmichCall :=
  let sha1 := hash file_content
  let device_asset_id := device_id ++ "-" ++ sha1
  let result : UploadResultR :=
    match resp with
    | .ok id dup => ⟨filename, "success", id, dup, none, none⟩
    | .httpStatus code text =>
      ⟨filename, "error", none, false,
        some ("Immich returned " ++ toString code ++ ": " ++ text), none⟩
    | .exn msg => ⟨filename, "error", none, false, some msg, none⟩
  ⟨result, [.remoteUpload], sha1, device_asset_id, content_type⟩

/-- `POST /api/upload/file` (api_routes.py lines 474-501): read the file
and hand it to `upload_to_immich` with device id `ios-shortcut`. -/
def upload_single_file (hash : Bytes → String) (resp : ImmichResp)
    (contents : Bytes) (filename content_type : String) : ImmichCall :=
  upload_to_immich hash resp contents filename content_type "ios-shortcut"

/-- `POST /api/upload/base64` (after base64 decode and type sniffing):
hand the decoded bytes to `upload_to_immich`, device id
`ios-shortcut-base64`. -/
def upload_base64_file (hash : Bytes → String) (resp : ImmichResp)
    (contents : Bytes) (filename content_type : String) : ImmichCall :=
  upload_to_immich hash resp contents filename content_type "ios-shortcut-base64"

/-- C6 counterexample: a second `/api/upload/file` request carrying bytes
identical to an earlier upload. `upload_to_immich` keeps no state and
never touches the local dedup ledger, so the repeat request still
performs the remote upload call (and reports plain success when the
remote did not flag the duplicate) instead of being detected and
short-circuited before any remote call. -/
theorem C6_counterexample :
    Action.remoteUpload ∈ (upload_single_file (fun _ => "cs") (.ok (some "a2") false)
        [1, 2] "p.jpg" "image/jpeg").actions
    ∧ (upload_single_file (fun _ => "cs") (.ok (some "a2") false)
        [1, 2] "p.jpg" "image/jpeg").result.status = "success"
    ∧ (upload_single_file (fun _ => "cs") (.ok (some "a2") false)
        [1, 2] "p.jpg" "image/jpeg").result.duplicate = false
    ∧ Action.localChecksumLookup ∉ (upload_single_file (fun _ => "cs") (.ok (some "a2") false)
        [1, 2] "p.jpg" "image/jpeg").actions
    ∧ Action.ledgerInsert ∉ (upload_single_file (fun _ => "cs") (.ok (some "a2") false)
        [1, 2] "p.jpg" "image/jpeg").actions := by
  decide

/-- C6 amended: only `/api/upload` and the chunked-complete path run the
local dedup pipeline; the auxiliary endpoints (single file, base64, URL,
batch) all converge on `upload_to_immich`, which performs exactly one
remote upload call per item, never reads or writes the local dedup
ledger, and delegates duplicate detection to the remote store via the
checksum it always sends; its error results never carry a duplicate flag. -/
theorem C6_auxiliary_endpoints_converge (hash : Bytes → String) (resp : ImmichResp)
    (contents : Bytes) (filename content_type device_id : String) :
    (upload_to_immich hash resp contents filename content_type device_id).actions
      = [.remoteUpload]
    ∧ Action.localChecksumLookup ∉
        (upload_to_immich hash resp contents filename content_type device_id).actions
    ∧ Action.localDeviceLookup ∉
        (upload_to_immich hash resp contents filename content_type device_id).actions
    ∧ Action.ledgerInsert ∉
        (upload_to_immich hash resp contents filename content_type device_id).actions
    ∧ (upload_to_immich hash resp contents filename content_type device_id).sentChecksum
      = hash contents
    ∧ upload_single_file hash resp contents filename content_type
      = upload_to_immich hash resp contents filename content_type "ios-shortcut"
    ∧ upload_base64_file hash resp contents filename content_type
      = upload_to_immich hash resp contents filename content_type "ios-shortcut-base64"
    ∧ ((upload_to_immich hash resp contents filename content_type device_id).result.status
        = "error" →
        (upload_to_immich hash resp contents filename content_type device_id).result.duplicate
          = false) := by
  refine ⟨rfl, by simp [upload_to_immich], by simp [upload_to_immich],
    by simp [upload_to_immich], rfl, rfl, rfl, ?_⟩
  intro herr
  cases resp <;> simp_all [upload_to_immich]

/-- Witness for the amended C6 theorem at a concrete failing call. -/
theorem C6_auxiliary_endpoints_converge_witness :
    (upload_to_immich (fun _ => "cs") (.exn "timeout") [1] "f" "ct" "dev").result.duplicate
      = false
    ∧ (upload_to_immich (fun _ => "cs") (.exn "timeout") [1] "f" "ct" "dev").actions
      = [.remoteUpload] :=
  ⟨(C6_auxiliary_endpoints_converge (fun _ => "cs") (.exn "timeout") [1] "f" "ct"
      "dev").2.2.2.2.2.2.2 rfl,
   (C6_auxiliary_endpoints_converge (fun _ => "cs") (.exn "timeout") [1] "f" "ct" "dev").1⟩

/-! ## C9: batch endpoints (upload_from_urls / upload_batch_files) -/

/-- The media fetcher's verdict for one URL (`DownloadResult`). -/
inductive DlResult
  | ok (content : Bytes) (filename : String) (content_type : String)
  | err (msg : String)
deriving DecidableEq, Repr

/-- `api_routes.BatchUploadResponse`. -/
structure BatchUploadResponse where
  total : Nat
  successful : Nat
  duplicates : Nat
  failed : Nat
  results : List UploadResultR
deriving DecidableEq, Repr

/-- One iteration of the `upload_from_urls` loop, for input
`(url, source_label, download result, remote response)`: a failed
download becomes an error result named after the URL; a successful one is
forwarded through `upload_to_immich` with device id
`immich-drop-{source_label}`; either way the platform label is attached. -/
def url_item_result (hash : Bytes → String)
    (item : String × String × DlResult × ImmichResp) : UploadResultR :=
  match item.2.2.1 with
  | .err msg => ⟨item.1, "error", none, false, some msg, some item.2.1⟩
  | .ok content fn ct =>
    let call := upload_to_immich hash item.2.2.2 content fn ct ("immich-drop-" ++ item.2.1)
    { call.result with platform := some item.2.1 }

/-- The aggregate counters computed at the end of both batch endpoints:
`successful` counts non-duplicate successes, `duplicates` counts
duplicate-flagged results, `failed` counts error results. -/
def batchCounts (results : List UploadResultR) : Nat × Nat × Nat :=
  (results.countP (fun r => r.status == "success" && !r.duplicate),
   results.countP (fun r => r.duplicate),
   results.countP (fun r => r.status == "error"))

/-- `POST /api/upload/urls` (api_routes.py lines 325-418): reject an
empty or oversized batch, else produce one result per URL — a per-item
download or upload failure only affects that item — plus the counters. -/
def upload_from_urls (hash : Bytes → String)
    (items : List (String × String × DlResult × ImmichResp)) :
    Except Nat BatchUploadResponse :=
  if items.isEmpty then .error 400
  else if items.length > 10 then .error 400
  else
    let results := items.map (url_item_result hash)
    .ok ⟨results.length, (batchCounts results).1, (batchCounts results).2.1,
         (batchCounts results).2.2, results⟩

/-- One iteration of the `upload_batch_files` loop, for input
`(contents, filename, content_type, remote response)`. -/
def batch_file_item_result (hash : Bytes → String)
    (item : Bytes × String × String × ImmichResp) : UploadResultR :=
  (upload_to_immich hash item.2.2.2 item.1 item.2.1 item.2.2.1 "ios-shortcut").result

/-- `POST /api/upload/batch` (api_routes.py lines 420-472): up to 50
files, one result each, same counters. -/
def upload_batch_files (hash : Bytes → String)
    (files : List (Bytes × String × String × ImmichResp)) :
    Except Nat BatchUploadResponse :=
  if files.isEmpty then .error 400
  else if files.length > 50 then .error 400
  else
    let results := files.map (batch_file_item_result hash)
    .ok ⟨results.length, (batchCounts results).1, (batchCounts results).2.1,
         (batchCounts results).2.2, results⟩

lemma counts_partition (results : List UploadResultR)
    (h : ∀ r ∈ results, (r.status = "success" ∨ r.status = "error")
        ∧ (r.status = "error" → r.duplicate = false)) :
    (batchCounts results).1 + (batchCounts results).2.1 + (batchCounts results).2.2
      = results.length := by
  induction results with
  | nil => rfl
  | cons r t ih =>
    have hr := h r (List.mem_cons_self _ _)
    have ht := ih (fun x hx => h x (List.mem_cons_of_mem _ hx))
    simp only [batchCounts, List.countP_cons] at ht ⊢
    rcases hr.1 with hs | he
    · by_cases hdup : r.duplicate = true
      · simp only [hs, hdup]
        simp
        omega
      · have hdf : r.duplicate = false := Bool.eq_false_iff.mpr hdup
        simp only [hs, hdf]
        simp
        omega
    · have hdf : r.duplicate = false := hr.2 he
      simp only [he, hdf]
      simp
      omega

lemma url_item_result_shape (hash : Bytes → String)
    (item : String × String × DlResult × ImmichResp) :
    ((url_item_result hash item).status = "success"
      ∨ (url_item_result hash item).status = "error")
    ∧ ((url_item_result hash item).status = "error" →
        (url_item_result hash item).duplicate = false) := by
  rcases item with ⟨url, label, dl, resp⟩
  cases dl with
  | err msg => simp [url_item_result]
  | ok content fn ct => cases resp <;> simp [url_item_result, upload_to_immich]

lemma batch_file_item_result_shape (hash : Bytes → String)
    (item : Bytes × String × String × ImmichResp) :
    ((batch_file_item_result hash item).status = "success"
      ∨ (batch_file_item_result hash item).status = "error")
    ∧ ((batch_file_item_result hash item).status = "error" →
        (batch_file_item_result hash item).duplicate = false) := by
  rcases item with ⟨content, fn, ct, resp⟩
  cases resp <;> simp [batch_file_item_result, upload_to_immich]

/-- C9: for both batch endpoints, a per-item failure never aborts the
siblings — the response carries exactly one result per submitted item,
computed from that item alone, with `total` equal to the item count,
`successful` counting only non-duplicate successes, and the three
counters `successful`/`duplicates`/`failed` partitioning `total`. -/
theorem C9_batch_isolation (hash : Bytes → String)
    (items : List (String × String × DlResult × ImmichResp))
    (files : List (Bytes × String × String × ImmichResp))
    (hi1 : items ≠ []) (hi2 : items.length ≤ 10)
    (hf1 : files ≠ []) (hf2 : files.length ≤ 50) :
    (∃ resp, upload_from_urls hash items = .ok resp
      ∧ resp.results = items.map (url_item_result hash)
      ∧ resp.results.length = items.length
      ∧ resp.total = items.length
      ∧ resp.successful
          = resp.results.countP (fun r => r.status == "success" && !r.duplicate)
      ∧ resp.duplicates = resp.results.countP (fun r => r.duplicate)
      ∧ resp.failed = resp.results.countP (fun r => r.status == "error")
      ∧ resp.successful + resp.duplicates + resp.failed = resp.total)
    ∧ (∃ resp, upload_batch_files hash files = .ok resp
      ∧ resp.results = files.map (batch_file_item_result hash)
      ∧ resp.results.length = files.length
      ∧ resp.total = files.length
      ∧ resp.successful
          = resp.results.countP (fun r => r.status == "success" && !r.duplicate)
      ∧ resp.duplicates = resp.results.countP (fun r => r.duplicate)
      ∧ resp.failed = resp.results.countP (fun r => r.status == "error")
      ∧ resp.successful + resp.duplicates + resp.failed = resp.total) := by
  constructor
  · have hempty : items.isEmpty = false := by
      cases items with
      | nil => exact absurd rfl hi1
      | cons a t => rfl
    have hlen : (items.length > 10) = False := by
      simp only [eq_iff_iff, iff_false]
      omega
    have hruns : upload_from_urls hash items
        = .ok ⟨(items.map (url_item_result hash)).length,
               (batchCounts (items.map (url_item_result hash))).1,
               (batchCounts (items.map (url_item_result hash))).2.1,
               (batchCounts (items.map (url_item_result hash))).2.2,
               items.map (url_item_result hash)⟩ := by
      simp only [upload_from_urls, hempty, Bool.false_eq_true, if_false, hlen]
    have hpart := counts_partition (items.map (url_item_result hash)) (by
      intro r hr
      rcases List.mem_map.mp hr with ⟨it, _, hit⟩
      subst hit
      exact url_item_result_shape hash it)
    exact ⟨_, hruns, rfl, by simp, by simp, rfl, rfl, rfl, hpart⟩
  · have hempty : files.isEmpty = false := by
      cases files with
      | nil => exact absurd rfl hf1
      | cons a t => rfl
    have hlen : (files.length > 50) = False := by
      simp only [eq_iff_iff, iff_false]
      omega
    have hruns : upload_batch_files hash files
        = .ok ⟨(files.map (batch_file_item_result hash)).length,
               (batchCounts (files.map (batch_file_item_result hash))).1,
               (batchCounts (files.map (batch_file_item_result hash))).2.1,
               (batchCounts (files.map (batch_file_item_result hash))).2.2,
               files.map (batch_file_item_result hash)⟩ := by
      simp only [upload_batch_files, hempty, Bool.false_eq_true, if_false, hlen]
    have hpart := counts_partition (files.map (batch_file_item_result hash)) (by
      intro r hr
      rcases List.mem_map.mp hr with ⟨it, _, hit⟩
      subst hit
      exact batch_file_item_result_shape hash it)
    exact ⟨_, hruns, rfl, by simp, by simp, rfl, rfl, rfl, hpart⟩

/-- Witness for C9: the spec scenario — three URLs of which the second
fails to download, one of the survivors a server-side duplicate. -/
theorem C9_batch_isolation_witness :
    ∃ resp, upload_from_urls (fun _ => "cs")
        [("u1", "tiktok", .ok [1] "a.mp4" "video/mp4", .ok (some "x") false),
         ("u2", "reddit", .err "download failed", .ok none false),
         ("u3", "direct_image", .ok [2] "b.jpg" "image/jpeg", .ok (some "y") true)]
      = .ok resp
      ∧ resp.total = 3 ∧ resp.results.length = 3
      ∧ resp.successful + resp.duplicates + resp.failed = resp.total := by
  have h := (C9_batch_isolation (fun _ => "cs")
    [("u1", "tiktok", .ok [1] "a.mp4" "video/mp4", .ok (some "x") false),
     ("u2", "reddit", .err "download failed", .ok none false),
     ("u3", "direct_image", .ok [2] "b.jpg" "image/jpeg", .ok (some "y") true)]
    [([1], "f", "ct", .ok (some "x") false)]
    (by decide) (by decide) (by decide) (by decide)).1
  rcases h with ⟨resp, heq, _, hrl, ht, _, _, _, hsum⟩
  refine ⟨resp, heq, by rw [ht]; rfl, by rw [hrl]; rfl, hsum⟩

/-! ## C1: single-use invite claim under interleaved requests

Each `api_upload` request with a `max_uses = 1` invite performs up to
three database round trips (app/app.py lines 573-609): the row snapshot
read, the conditional claim `UPDATE ... WHERE claimed IS NULL OR
claimed = 0`, and — for a request whose update changed no rows — the
ownership re-read.  Each SQL statement is atomic, but statements of
concurrent requests interleave; the model below runs one small-step
thread per request over the shared `claimed / claimed_by_session`
columns, under an arbitrary schedule. -/

namespace SingleUse

/-- The shared claim columns of the single-use invite row. -/
structure ClaimState where
  claimed : Bool
  claimed_by_session : Option String
deriving DecidableEq, Repr

/-- Where one request stands in the claim block: about to read the row
snapshot; about to run the conditional claim update; about to re-read
the owner after a lost claim; or decided (`allowed` = proceeds to
upload, `¬allowed` = rejected with `invite_claimed`). -/
inductive Phase
  | start
  | tryClaim
  | reread
  | done (allowed : Bool)
deriving DecidableEq, Repr

/-- One in-flight request: its form `session_id` and its phase; `won`
records that this request's conditional update claimed the row. -/
structure Thread where
  sid : String
  phase : Phase
  won : Bool
deriving DecidableEq, Repr

/-- The snapshot branch for an already-claimed invite:
`if claimed_by_session and claimed_by_session != session_id: reject` —
a falsy (`NULL` or empty) owner lets any session through. -/
def snapshotAllows (S : ClaimState) (sid : String) : Bool :=
  !(truthyStr S.claimed_by_session && S.claimed_by_session != some sid)

/-- The re-read branch of a request whose update changed no rows:
`if not owner or owner != session_id: reject`. -/
def rereadAllows (S : ClaimState) (sid : String) : Bool :=
  truthyStr S.claimed_by_session && S.claimed_by_session == some sid

/-- One atomic database statement of one request. -/
def stepThread (S : ClaimState) (t : Thread) : ClaimState × Thread :=
  match t.phase with
  | .start =>
    if S.claimed then (S, { t with phase := .done (snapshotAllows S t.sid) })
    else (S, { t with phase := .tryClaim })
  | .tryClaim =>
    if S.claimed then (S, { t with phase := .reread })
    else (⟨true, some t.sid⟩, { t with phase := .done true, won := true })
  | .reread =>
    (S, { t with phase := .done (rereadAllows S t.sid) })
  | .done _ => (S, t)

/-- The invite row plus all in-flight requests. -/
structure Sys where
  state : ClaimState
  threads : List Thread
deriving DecidableEq, Repr

/-- Let request `i` execute its next atomic statement. -/
def runStep (sys : Sys) (i : Nat) : Sys :=
  match sys.threads[i]? with
  | none => sys
  | some t =>
    let p := stepThread sys.state t
    ⟨p.1, sys.threads.set i p.2⟩

/-- Run an arbitrary interleaving schedule. -/
def run (sys : Sys) (sched : List Nat) : Sys :=
  sched.foldl runStep sys

/-- Reachability invariant: while unclaimed, no request has won or
decided; once claimed, the owner column names the winning session, all
winners share that session id, and — whenever the owner id is non-empty
— a decided request is allowed exactly when it came from the owner. -/
def Inv (sys : Sys) : Prop :=
  (sys.state.claimed = false →
      sys.state.claimed_by_session = none
      ∧ ∀ t ∈ sys.threads, t.won = false ∧ (t.phase = .start ∨ t.phase = .tryClaim))
  ∧ (sys.state.claimed = true →
      ∃ w, sys.state.claimed_by_session = some w
        ∧ (∀ t ∈ sys.threads, t.won = true → t.sid = w)
        ∧ (w ≠ "" → ∀ t ∈ sys.threads, ∀ b, t.phase = .done b → (b = true ↔ t.sid = w)))

lemma runStep_inv (sys : Sys) (i : Nat) (h : Inv sys) : Inv (runStep sys i) := by
  rw [runStep]
  cases hget : sys.threads[i]? with
  | none => exact h
  | some t =>
    have htmem : t ∈ sys.threads := List.getElem?_mem hget
    have hset : ∀ x ∈ sys.threads.set i (stepThread sys.state t).2,
        x ∈ sys.threads ∨ x = (stepThread sys.state t).2 :=
      fun x hx => List.mem_or_eq_of_mem_set hx
    cases hph : t.phase with
    | start =>
      cases hcl : sys.state.claimed with
      | false =>
        simp only [stepThread, hph, hcl, Bool.false_eq_true, if_false]
        constructor
        · intro _
          refine ⟨(h.1 hcl).1, ?_⟩
          intro x hx
          rcases hset x (by simpa [stepThread, hph, hcl] using hx) with hx2 | hx2
          · exact (h.1 hcl).2 x hx2
          · rw [hx2]
            simp only [stepThread, hph, hcl, Bool.false_eq_true, if_false]
            exact ⟨((h.1 hcl).2 t htmem).1, by simp⟩
        · intro hcl2
          exact absurd hcl2 (by simp [hcl])
      | true =>
        simp only [stepThread, hph, hcl, if_true]
        rcases h.2 hcl with ⟨w, hw, hwon, hdone⟩
        constructor
        · intro hcl2
          exact absurd hcl2 (by simp [hcl])
        · intro _
          refine ⟨w, hw, ?_, ?_⟩
          · intro x hx hxw
            rcases hset x (by simpa [stepThread, hph, hcl] using hx) with hx2 | hx2
            · exact hwon x hx2 hxw
            · rw [hx2] at hxw ⊢
              simp only [stepThread, hph, hcl, if_true] at hxw ⊢
              exact hwon t htmem hxw
          · intro hwne x hx b hb
            rcases hset x (by simpa [stepThread, hph, hcl] using hx) with hx2 | hx2
            · exact hdone hwne x hx2 b hb
            · rw [hx2] at hb ⊢
              simp only [stepThread, hph, hcl, if_true] at hb ⊢
              have hb2 : b = snapshotAllows sys.state t.sid :=
                ((Phase.done.injEq _ _).mp hb).symm
              subst hb2
              constructor
              · intro hall
                by_contra hne
                have h1 : truthyStr sys.state.claimed_by_session = true := by
                  simp [truthyStr, hw, hwne]
                have h2 : (sys.state.claimed_by_session != some t.sid) = true := by
                  simp only [hw, bne_iff_ne, ne_eq, Option.some.injEq]
                  exact fun hcon => hne hcon.symm
                rw [snapshotAllows, h1, h2] at hall
                simp at hall
              · intro hsw
                rw [snapshotAllows, hw, ← hsw]
                simp
    | tryClaim =>
      cases hcl : sys.state.claimed with
      | false =>
        simp only [stepThread, hph, hcl, Bool.false_eq_true, if_false]
        constructor
        · intro hcl2
          exact absurd hcl2 (by simp)
        · intro _
          refine ⟨t.sid, rfl, ?_, ?_⟩
          · intro x hx _
            rcases hset x (by simpa [stepThread, hph, hcl] using hx) with hx2 | hx2
            · exact absurd ((h.1 hcl).2 x hx2).1 (by
                rename_i hxw
                simp [hxw])
            · rw [hx2]
              simp [stepThread, hph, hcl]
          · intro _ x hx b hb
            rcases hset x (by simpa [stepThread, hph, hcl] using hx) with hx2 | hx2
            · rcases ((h.1 hcl).2 x hx2).2 with hp | hp <;> rw [hp] at hb <;> cases hb
            · rw [hx2] at hb ⊢
              simp only [stepThread, hph, hcl, Bool.false_eq_true, if_false] at hb ⊢
              have hb2 : b = true := ((Phase.done.injEq _ _).mp hb).symm
              subst hb2
              simp
      | true =>
        simp only [stepThread, hph, hcl, if_true]
        rcases h.2 hcl with ⟨w, hw, hwon, hdone⟩
        constructor
        · intro hcl2
          exact absurd hcl2 (by simp [hcl])
        · intro _
          refine ⟨w, hw, ?_, ?_⟩
          · intro x hx hxw
            rcases hset x (by simpa [stepThread, hph, hcl] using hx) with hx2 | hx2
            · exact hwon x hx2 hxw
            · rw [hx2] at hxw ⊢
              simp only [stepThread, hph, hcl, if_true] at hxw ⊢
              exact hwon t htmem hxw
          · intro hwne x hx b hb
            rcases hset x (by simpa [stepThread, hph, hcl] using hx) with hx2 | hx2
            · exact hdone hwne x hx2 b hb
            · rw [hx2] at hb
              simp only [stepThread, hph, hcl, if_true] at hb
              exact absurd hb (by simp)
    | reread =>
      cases hcl : sys.state.claimed with
      | false =>
        rcases ((h.1 hcl).2 t htmem).2 with hp | hp <;> rw [hph] at hp <;> cases hp
      | true =>
        simp only [stepThread, hph]
        rcases h.2 hcl with ⟨w, hw, hwon, hdone⟩
        constructor
        · intro hcl2
          exact absurd hcl2 (by simp [hcl])
        · intro _
          refine ⟨w, hw, ?_, ?_⟩
          · intro x hx hxw
            rcases hset x (by simpa [stepThread, hph] using hx) with hx2 | hx2
            · exact hwon x hx2 hxw
            · rw [hx2] at hxw ⊢
              simp only [stepThread, hph] at hxw ⊢
              exact hwon t htmem hxw
          · intro hwne x hx b hb
            rcases hset x (by simpa [stepThread, hph] using hx) with hx2 | hx2
            · exact hdone hwne x hx2 b hb
            · rw [hx2] at hb ⊢
              simp only [stepThread, hph] at hb ⊢
              have hb2 : b = rereadAllows sys.state t.sid :=
                ((Phase.done.injEq _ _).mp hb).symm
              subst hb2
              constructor
              · intro hall
                rw [rereadAllows, Bool.and_eq_true] at hall
                have h3 : some w = some t.sid := by
                  have h2 := hall.2
                  rw [hw] at h2
                  simpa using h2
                exact (Option.some.inj h3).symm
              · intro hsw
                rw [rereadAllows, hw, ← hsw]
                simp [truthyStr]
                rw [hsw]
                exact hwne
    | done b0 =>
      simp only [stepThread, hph]
      constructor
      · intro hcl
        rcases ((h.1 hcl).2 t htmem).2 with hp | hp <;> rw [hph] at hp <;> cases hp
      · intro hcl
        rcases h.2 hcl with ⟨w, hw, hwon, hdone⟩
        refine ⟨w, hw, ?_, ?_⟩
        · intro x hx hxw
          rcases hset x (by simpa [stepThread, hph] using hx) with hx2 | hx2
          · exact hwon x hx2 hxw
          · rw [hx2] at hxw ⊢
            simp only [stepThread, hph] at hxw ⊢
            exact hwon t htmem hxw
        · intro hwne x hx b hb
          rcases hset x (by simpa [stepThread, hph] using hx) with hx2 | hx2
          · exact hdone hwne x hx2 b hb
          · rw [hx2] at hb ⊢
            simp only [stepThread, hph] at hb ⊢
            have hb2 : b = b0 := ((Phase.done.injEq _ _).mp hb).symm
            rw [hb2]
            exact hdone hwne t htmem b0 hph

lemma run_inv (sys : Sys) (sched : List Nat) (h : Inv sys) : Inv (run sys sched) := by
  induction sched generalizing sys with
  | nil => exact h
  | cons i rest ih => exact ih _ (runStep_inv sys i h)

end SingleUse

/-- C1 counterexample: starting from an unclaimed `max_uses = 1` invite,
a request from the empty session id claims it (schedule: its read, its
conditional update, then the other request's read).  The later request
from the different session id `"x"` is then *allowed* — `claimed_by_session`
is falsy, so `if claimed_by_session and claimed_by_session != session_id`
does not reject — contradicting "every request using the token from a
session other than S is rejected with an invite_claimed error". -/
theorem C1_counterexample :
    (SingleUse.run ⟨⟨false, none⟩,
        [⟨"", .start, false⟩, ⟨"x", .start, false⟩]⟩ [0, 0, 1]).state
      = ⟨true, some ""⟩
    ∧ (SingleUse.run ⟨⟨false, none⟩,
        [⟨"", .start, false⟩, ⟨"x", .start, false⟩]⟩ [0, 0, 1]).threads
      = [⟨"", .done true, true⟩, ⟨"x", .done true, false⟩] := by
  decide

/-- C1 amended: over every interleaving of single-use-invite requests,
at most one session id ever wins the conditional claim (all winners share
one session id, recorded as the owner); and provided the claiming session
id is non-empty, every decided request from another session is rejected
while every decided request from the claiming session is allowed.  (When
the owner column is falsy — empty session id — the code deliberately
lets any session through, see the counterexample.) -/
theorem C1_single_use_exclusivity (threads : List SingleUse.Thread)
    (h0 : ∀ t ∈ threads, t.phase = .start ∧ t.won = false)
    (sched : List Nat) :
    (∀ t1 ∈ (SingleUse.run ⟨⟨false, none⟩, threads⟩ sched).threads,
       ∀ t2 ∈ (SingleUse.run ⟨⟨false, none⟩, threads⟩ sched).threads,
       t1.won = true → t2.won = true → t1.sid = t2.sid)
    ∧ (∀ t ∈ (SingleUse.run ⟨⟨false, none⟩, threads⟩ sched).threads, t.won = true →
        (SingleUse.run ⟨⟨false, none⟩, threads⟩ sched).state.claimed_by_session
          = some t.sid)
    ∧ (∀ w, (SingleUse.run ⟨⟨false, none⟩, threads⟩ sched).state.claimed_by_session
          = some w → w ≠ "" →
        ∀ t ∈ (SingleUse.run ⟨⟨false, none⟩, threads⟩ sched).threads,
        ∀ b, t.phase = .done b → (b = true ↔ t.sid = w)) := by
  have hinv : SingleUse.Inv (SingleUse.run ⟨⟨false, none⟩, threads⟩ sched) := by
    apply SingleUse.run_inv
    constructor
    · intro _
      exact ⟨rfl, fun t ht => ⟨(h0 t ht).2, Or.inl (h0 t ht).1⟩⟩
    · intro hcl
      exact absurd hcl (by simp)
  refine ⟨?_, ?_, ?_⟩
  · intro t1 ht1 t2 ht2 hw1 hw2
    cases hcl : (SingleUse.run ⟨⟨false, none⟩, threads⟩ sched).state.claimed with
    | false => exact absurd ((hinv.1 hcl).2 t1 ht1).1 (by simp [hw1])
    | true =>
      rcases hinv.2 hcl with ⟨w, _, hwon, _⟩
      rw [hwon t1 ht1 hw1, hwon t2 ht2 hw2]
  · intro t ht htw
    cases hcl : (SingleUse.run ⟨⟨false, none⟩, threads⟩ sched).state.claimed with
    | false => exact absurd ((hinv.1 hcl).2 t ht).1 (by simp [htw])
    | true =>
      rcases hinv.2 hcl with ⟨w, hw, hwon, _⟩
      rw [hw, hwon t ht htw]
  · intro w hw hwne t ht b hb
    cases hcl : (SingleUse.run ⟨⟨false, none⟩, threads⟩ sched).state.claimed with
    | false =>
      rw [(hinv.1 hcl).1] at hw
      cases hw
    | true =>
      rcases hinv.2 hcl with ⟨w2, hw2, _, hdone⟩
      have hww : w2 = w := by
        rw [hw2] at hw
        exact Option.some.inj hw
      subst hww
      exact hdone hwne t ht b hb

/-- Witness for C1's amended theorem: sessions "a" and "b" race; "a"
reads, "b" reads, "a" claims, "b" loses the update and re-reads. -/
theorem C1_single_use_exclusivity_witness :
    (∀ t1 ∈ (SingleUse.run ⟨⟨false, none⟩,
        [⟨"a", .start, false⟩, ⟨"b", .start, false⟩]⟩ [0, 1, 0, 1, 1]).threads,
       ∀ t2 ∈ (SingleUse.run ⟨⟨false, none⟩,
        [⟨"a", .start, false⟩, ⟨"b", .start, false⟩]⟩ [0, 1, 0, 1, 1]).threads,
       t1.won = true → t2.won = true → t1.sid = t2.sid)
    ∧ (∀ t ∈ (SingleUse.run ⟨⟨false, none⟩,
        [⟨"a", .start, false⟩, ⟨"b", .start, false⟩]⟩ [0, 1, 0, 1, 1]).threads,
        t.won = true →
        (SingleUse.run ⟨⟨false, none⟩,
          [⟨"a", .start, false⟩, ⟨"b", .start, false⟩]⟩ [0, 1, 0, 1, 1]).state.claimed_by_session
          = some t.sid)
    ∧ (∀ w, (SingleUse.run ⟨⟨false, none⟩,
          [⟨"a", .start, false⟩, ⟨"b", .start, false⟩]⟩ [0, 1, 0, 1, 1]).state.claimed_by_session
          = some w → w ≠ "" →
        ∀ t ∈ (SingleUse.run ⟨⟨false, none⟩,
          [⟨"a", .start, false⟩, ⟨"b", .start, false⟩]⟩ [0, 1, 0, 1, 1]).threads,
        ∀ b, t.phase = .done b → (b = true ↔ t.sid = w)) :=
  C1_single_use_exclusivity [⟨"a", .start, false⟩, ⟨"b", .start, false⟩]
    (by decide) [0, 1, 0, 1, 1]

/-! ## C2: multi-use usage accounting under interleaved requests

A multi-use upload checks `used_count >= max_uses` against the row
snapshot read during validation (app/app.py lines 610-614) and, only
after the remote upload succeeded, runs the blind increment
`UPDATE invites SET used_count = used_count + 1` (lines 652-672).  The
check and the increment are separate statements with the whole upload in
between, not one conditional update. -/

namespace MultiUse

/-- Where one multi-use request stands: about to run the validation
usage check; past validation and about to run the post-upload increment;
or finished (`ok` = uploaded and counted, `¬ok` = rejected with
`invite_exhausted`). -/
inductive Phase
  | start
  | increment
  | done (ok : Bool)
deriving DecidableEq, Repr

/-- One atomic statement of one request against the shared `used_count`
(the remote upload between the two statements is where concurrent
requests interleave). -/
def stepThread (max_uses : Int) (used : Int) (ph : Phase) : Int × Phase :=
  match ph with
  | .start =>
    if used ≥ (if max_uses ≥ 0 then max_uses else 10 ^ 9) then (used, .done false)
    else (used, .increment)
  | .increment => (used + 1, .done true)
  | .done b => (used, .done b)

/-- The invite's `used_count` plus all in-flight multi-use requests. -/
structure Sys where
  used : Int
  threads : List Phase
deriving DecidableEq, Repr

/-- Let request `i` execute its next atomic statement. -/
def runStep (max_uses : Int) (sys : Sys) (i : Nat) : Sys :=
  match sys.threads[i]? with
  | none => sys
  | some ph =>
    let p := stepThread max_uses sys.used ph
    ⟨p.1, sys.threads.set i p.2⟩

/-- Run an arbitrary interleaving schedule. -/
def run (max_uses : Int) (sys : Sys) (sched : List Nat) : Sys :=
  sched.foldl (runStep max_uses) sys

end MultiUse

/-- C2: the check-and-increment is *not* one atomic read-modify-write.
With `max_uses = 2` and `used_count = 0`, one upload completes, then two
concurrent uploads both pass the `used_count < max_uses` check (each
reads `used_count = 1`) before either increments: all three succeed and
`used_count` reaches `3 > max_uses` — the invariant the claim states is
violated by the code. -/
theorem C2_used_count_overflow :
    (MultiUse.run 2 ⟨0, [.start, .start, .start]⟩ [0, 0, 1, 2, 1, 2]).used = 3
    ∧ (2 : Int) < 3
    ∧ (MultiUse.run 2 ⟨0, [.start, .start, .start]⟩ [0, 0, 1, 2, 1, 2]).threads
      = [.done true, .done true, .done true] := by
  decide

end ImmichDrop
